import Mathlib

/-!
Verification of the wstunnel server core (`src/tunnel/server.rs`) against its
natural-language specification.  The Rust functions are shallowly embedded as
executable Lean definitions: request paths and header values become `List Char`
(the code only ever slices and compares bytes, and all constants involved are
ASCII), HTTP responses become a record of the observable fields the code sets
(status, body, and the two response headers it may add), machine integers
become `Nat`, fallible operations become `Except`, and external collaborators
(the DNS resolver, the socket factories, the JWT verifier, the TLS reloader)
become function parameters, reflecting that the spec treats them as named
interfaces.
-/

/-- Observable part of an HTTP response built by the server: status code, body,
and the two response headers `server_upgrade` may add (`Cookie` and
`Sec-WebSocket-Protocol`).  Plain error responses built with
`http::Response::builder()` carry neither header. -/
structure HttpResponse where
  status : Nat
  body : String
  cookie : Option (List Char)
  swsProto : Option String
deriving DecidableEq

/-- The uniform admission-error response:
`Response::builder().status(StatusCode::BAD_REQUEST).body("Invalid upgrade request")`. -/
def badRequest : HttpResponse :=
  { status := 400, body := "Invalid upgrade request", cookie := none, swsProto := none }

/-- Modelled from the spec: the crate-level `LocalProtocol` enum is not part of
`src/`; the spec (§3) lists the five tunnel protocols the server dispatches on
(`ForwardTCP`, `ForwardUDP{timeout?}`, `ReverseTCP`, `ReverseUDP{timeout?}`,
`ReverseSOCKS5`), and the `_` arm of `run_tunnel` shows the enum has further
variants the server rejects; `Stdio` and `Socks5` stand for those.  Timeouts
are in seconds (`Duration::from_secs`). -/
inductive LocalProtocol where
  | Tcp
  | Udp (timeout : Option Nat)
  | Stdio
  | Socks5
  | ReverseTcp
  | ReverseUdp (timeout : Option Nat)
  | ReverseSocks5
deriving DecidableEq

/-- Modelled from the spec: the verified token claims (`TunnelRequest`, §3) —
`id` (opaque trace string), `p` (protocol), `r` (remote host), `rp` (remote
port).  The struct itself lives outside `src/`; the field names are the ones
`server.rs` reads (`jwt.claims.p`, `jwt.claims.r`, `jwt.claims.rp`,
`jwt.claims.id`). -/
structure JwtTunnelConfig where
  id : String
  p : LocalProtocol
  r : String
  rp : Nat

/-- One decimal digit character, as produced by Rust's `{}` formatting. -/
def decDigit (d : Nat) : Char := Char.ofNat (48 + d % 10)

/-- Decimal rendering of a natural number, modelling Rust's
`format!("{}", n)` for unsigned integers. -/
def natToDecimal (n : Nat) : List Char :=
  if _h : n < 10 then [decDigit n]
  else natToDecimal (n / 10) ++ [decDigit n]
decreasing_by exact Nat.div_lt_self (by omega) (by omega)

/-- Decimal rendering as a `String`. -/
def natToDecStr (n : Nat) : String := ⟨natToDecimal n⟩

lemma decDigit_toNat_lt (d : Nat) : (decDigit d).toNat < 256 := by
  have h10 : ∀ m, m < 10 → (Char.ofNat (48 + m)).toNat < 256 := by decide
  exact h10 (d % 10) (Nat.mod_lt _ (by omega))

lemma natToDecimal_ascii (n : Nat) : ∀ c ∈ natToDecimal n, c.toNat < 256 := by
  induction n using Nat.strong_induction_on with
  | _ n ih =>
    rw [natToDecimal]
    split
    · intro c hc
      simp only [List.mem_singleton] at hc
      subst hc; exact decDigit_toNat_lt n
    · intro c hc
      rw [List.mem_append] at hc
      rcases hc with hc | hc
      · exact ih (n / 10) (Nat.div_lt_self (by omega) (by omega)) c hc
      · simp only [List.mem_singleton] at hc
        subst hc; exact decDigit_toNat_lt n

/-! ### Path validation (`validate_url`, server.rs lines 189–222) -/

/-- Rust byte-slice `&s[a..b]` on a string, as a list of characters. -/
def rsSlice (s : List Char) (a b : Nat) : List Char := (s.take b).drop a

/-- The literal suffix `"/events"` required of every upgrade path. -/
def eventsSuffix : List Char := ['/', 'e', 'v', 'e', 'n', 't', 's']

/-- The `paths_prefix.iter().any(|p| { max_len = min(path.len(), p.len() + 1);
p == &path[min_len..max_len] })` loop of `validate_url`: `max_len` is a
mutable captured by the closure, so after the short-circuiting `any` it holds
the value set by the first matching element (or by the last element tried, on
failure).  Returns the `any` result together with the final `max_len`. -/
def prefixScan (path : List Char) (min_len : Nat) :
    List (List Char) → Nat → Bool × Nat
  | [], max_len => (false, max_len)
  | p :: rest, _ =>
    let m := min path.length (p.length + 1)
    if p = rsSlice path min_len m then (true, m) else prefixScan path min_len rest m

/-- `validate_url(req, path_restriction)`: the request path must end with
`"/events"`; if the path allow-list is configured the path must additionally
start with `"/"`, some listed element must equal the slice following that
`"/"`, and the character right after the matched slice must again be `"/"`.
Any failure yields the uniform 400 response. -/
def validate_url (path : List Char) (restriction : Option (List (List Char))) :
    Except HttpResponse Unit :=
  if eventsSuffix.isSuffixOf path then
    match restriction with
    | none => .ok ()
    | some pathsAllow =>
      let min_len := min path.length 1
      if rsSlice path 0 min_len = ['/'] then
        match prefixScan path min_len pathsAllow 0 with
        | (false, _) => .error badRequest
        | (true, max_len) =>
          if (path.drop max_len).head? = some '/' then .ok ()
          else .error badRequest
      else .error badRequest
  else .error badRequest

/-- First-match reading of the allow-list check: scan the configured list in
order; the first element that is a prefix of the path after its leading `/`
decides the outcome — it must be followed immediately by another `/`.  Later
elements are never consulted once an earlier one matches. -/
def firstPrefixOk (path : List Char) : List (List Char) → Bool
  | [] => false
  | p :: rest =>
    if p.isPrefixOf (path.drop 1) then
      decide ((path.drop (p.length + 1)).head? = some '/')
    else firstPrefixOk path rest

lemma rsSlice_one (path : List Char) (m : Nat) :
    rsSlice path 1 m = (path.drop 1).take (m - 1) := by
  unfold rsSlice
  rw [List.drop_take]

lemma prefixScan_match_iff (p path : List Char) (h1 : 1 ≤ path.length) :
    p = rsSlice path 1 (min path.length (p.length + 1)) ↔
      p.isPrefixOf (path.drop 1) = true := by
  rw [rsSlice_one, List.isPrefixOf_iff_prefix]
  have hlen : (path.drop 1).length = path.length - 1 := by
    rw [List.length_drop]
  constructor
  · intro h
    have hplen : p.length = min (min path.length (p.length + 1) - 1) (path.drop 1).length := by
      conv_lhs => rw [h]
      rw [List.length_take]
    rw [hlen] at hplen
    have hple : p.length ≤ path.length - 1 := by omega
    have hmin : min path.length (p.length + 1) - 1 = p.length := by omega
    rw [hmin] at h
    rw [List.prefix_iff_eq_take]
    exact h
  · intro h
    have hple : p.length ≤ (path.drop 1).length := h.length_le
    rw [hlen] at hple
    have hmin : min path.length (p.length + 1) - 1 = p.length := by omega
    rw [hmin]
    exact List.prefix_iff_eq_take.mp h

lemma prefixScan_ok (path : List Char) (h1 : 1 ≤ path.length) :
    ∀ (ps : List (List Char)) (m0 : Nat),
      ((prefixScan path 1 ps m0).1 = true ∧
        (path.drop (prefixScan path 1 ps m0).2).head? = some '/') ↔
      firstPrefixOk path ps = true := by
  intro ps
  induction ps with
  | nil =>
    intro m0
    simp [prefixScan, firstPrefixOk]
  | cons p rest ih =>
    intro m0
    by_cases hp : p = rsSlice path 1 (min path.length (p.length + 1))
    · have hpref : p.isPrefixOf (path.drop 1) = true :=
        (prefixScan_match_iff p path h1).mp hp
      have hple : p.length ≤ path.length - 1 := by
        have := (List.isPrefixOf_iff_prefix.mp hpref).length_le
        rw [List.length_drop] at this
        omega
      have hmin : min path.length (p.length + 1) = p.length + 1 := by omega
      have hscan : prefixScan path 1 (p :: rest) m0 = (true, p.length + 1) := by
        simp only [prefixScan]
        rw [if_pos hp, hmin]
      rw [hscan]
      simp only [firstPrefixOk, hpref, if_true]
      simp [decide_eq_true_iff]
    · have hpref : p.isPrefixOf (path.drop 1) = false := by
        rcases h : p.isPrefixOf (path.drop 1) with _ | _
        · rfl
        · exact absurd ((prefixScan_match_iff p path h1).mpr h) hp
      have hscan : prefixScan path 1 (p :: rest) m0 =
          prefixScan path 1 rest (min path.length (p.length + 1)) := by
        simp only [prefixScan]
        rw [if_neg hp]
      rw [hscan]
      have hfp : firstPrefixOk path (p :: rest) = firstPrefixOk path rest := by
        simp only [firstPrefixOk]
        rw [hpref]
        rfl
      rw [hfp]
      exact ih _

lemma validate_url_some (c : Char) (tl : List Char) (ps : List (List Char))
    (hsuf : eventsSuffix.isSuffixOf (c :: tl) = true) :
    validate_url (c :: tl) (some ps) =
      (if c = '/' then
        (match prefixScan (c :: tl) 1 ps 0 with
         | (false, _) => Except.error badRequest
         | (true, max_len) =>
           if ((c :: tl).drop max_len).head? = some '/' then Except.ok ()
           else Except.error badRequest)
       else Except.error badRequest) := by
  unfold validate_url
  rw [hsuf, if_pos rfl]
  have hmin : min (c :: tl).length 1 = 1 := by simp
  dsimp only
  rw [hmin]
  have h01 : rsSlice (c :: tl) 0 1 = [c] := rfl
  rw [h01]
  by_cases hc : c = '/'
  · subst hc
    rw [if_pos rfl, if_pos rfl]
  · rw [if_neg (by simpa using hc), if_neg hc]

lemma validate_url_cases (path : List Char) (restriction : Option (List (List Char))) :
    validate_url path restriction = .ok () ∨ validate_url path restriction = .error badRequest := by
  rcases hsuf : eventsSuffix.isSuffixOf path with _ | _
  · right
    unfold validate_url
    rw [hsuf]
    rfl
  · rcases path with _ | ⟨c, tl⟩
    · exact absurd hsuf (by decide)
    · rcases restriction with _ | ps
      · left
        unfold validate_url
        rw [hsuf, if_pos rfl]
      · rw [validate_url_some c tl ps hsuf]
        by_cases hc : c = '/'
        · subst hc
          rw [if_pos rfl]
          rcases hscan : prefixScan ('/' :: tl) 1 ps 0 with ⟨fb, m⟩
          rcases fb with _ | _
          · right; rfl
          · by_cases hdr : (('/' :: tl).drop m).head? = some '/'
            · left
              dsimp only
              rw [if_pos hdr]
            · right
              dsimp only
              rw [if_neg hdr]
        · right
          rw [if_neg hc]

/-- Claim C1 (counterexample): with the allow-list `["a", "ab"]` the path
`"/ab/events"` has exactly the form `"/" ++ p ++ "/" ++ rest` for the listed
element `p = "ab"` and ends with `"/events"`, so the claim says it must be
accepted — but `validate_url` rejects it with 400, because the scan
short-circuits on the earlier listed element `"a"` (which matches the first
character but is not followed by `/`) and never considers `"ab"`. -/
theorem C1_counterexample :
    validate_url ['/', 'a', 'b', '/', 'e', 'v', 'e', 'n', 't', 's']
        (some [['a'], ['a', 'b']]) = .error badRequest ∧
    eventsSuffix.isSuffixOf ['/', 'a', 'b', '/', 'e', 'v', 'e', 'n', 't', 's'] = true ∧
    ['/', 'a', 'b', '/', 'e', 'v', 'e', 'n', 't', 's'] =
      '/' :: (['a', 'b'] ++ '/' :: ['e', 'v', 'e', 'n', 't', 's']) ∧
    ['a', 'b'] ∈ [['a'], ['a', 'b']] := by
  refine ⟨rfl, by decide, by decide, by decide⟩

/-- Claim C1 (amended): path validation accepts iff the path ends with the
literal `"/events"` and, when the allow-list is configured, the path starts
with `"/"` and the first listed element that is a prefix of the remainder is
immediately followed by `"/"` — an earlier listed element that matches but is
not followed by `"/"` causes rejection even when a later element would match
properly.  Every rejection is the uniform 400 response. -/
theorem C1_validate_url_amended (path : List Char) (restriction : Option (List (List Char))) :
    (validate_url path restriction = .ok () ↔
      (eventsSuffix.isSuffixOf path = true ∧
        ∀ ps, restriction = some ps →
          path.head? = some '/' ∧ firstPrefixOk path ps = true)) ∧
    (validate_url path restriction = .ok () ∨
      validate_url path restriction = .error badRequest) := by
  refine ⟨?_, validate_url_cases path restriction⟩
  rcases hsuf : eventsSuffix.isSuffixOf path with _ | _
  · have hv : validate_url path restriction = .error badRequest := by
      unfold validate_url
      rw [hsuf]
      rfl
    rw [hv]
    constructor
    · intro h; exact Except.noConfusion h
    · rintro ⟨h1, -⟩
      exact Bool.noConfusion h1
  · have hlen : 1 ≤ path.length := by
      have h7 := (List.isSuffixOf_iff_suffix.mp hsuf).length_le
      have : eventsSuffix.length = 7 := rfl
      omega
    rcases path with _ | ⟨c, tl⟩
    · exact absurd hsuf (by decide)
    · rcases restriction with _ | ps
      · have hv : validate_url (c :: tl) none = .ok () := by
          unfold validate_url
          rw [hsuf, if_pos rfl]
        rw [hv]
        constructor
        · intro _
          exact ⟨rfl, fun ps h => Option.noConfusion h⟩
        · intro _; rfl
      · rw [validate_url_some c tl ps hsuf]
        have hiff := prefixScan_ok (c :: tl) hlen ps 0
        by_cases hc : c = '/'
        · subst hc
          rw [if_pos rfl]
          rcases hscan : prefixScan ('/' :: tl) 1 ps 0 with ⟨fb, m⟩
          rw [hscan] at hiff
          rcases fb with _ | _
          · have hfpo : firstPrefixOk ('/' :: tl) ps = false := by
              rcases hf : firstPrefixOk ('/' :: tl) ps with _ | _
              · rfl
              · exact absurd (hiff.mpr hf).1 (by simp)
            constructor
            · intro h; exact Except.noConfusion h
            · rintro ⟨-, h2⟩
              have hx := (h2 ps rfl).2
              rw [hfpo] at hx
              exact Bool.noConfusion hx
          · dsimp only
            by_cases hdr : (('/' :: tl).drop m).head? = some '/'
            · rw [if_pos hdr]
              constructor
              · intro _
                refine ⟨rfl, ?_⟩
                intro ps' hps'
                injection hps' with hps'
                subst hps'
                exact ⟨rfl, hiff.mp ⟨rfl, hdr⟩⟩
              · intro _; rfl
            · rw [if_neg hdr]
              constructor
              · intro h; exact Except.noConfusion h
              · rintro ⟨-, h2⟩
                have hfpo := (h2 ps rfl).2
                exact absurd (hiff.mpr hfpo).2 hdr
        · rw [if_neg hc]
          constructor
          · intro h; exact Except.noConfusion h
          · rintro ⟨-, h2⟩
            have hhead := (h2 ps rfl).1
            rw [List.head?_cons] at hhead
            injection hhead with hhead
            exact absurd hhead hc

/-- Claim C1 witness: the configuration of spec scenario 3 — allow-list
`["v1"]` — accepts `/v1/events`. -/
theorem C1_witness :
    validate_url ['/', 'v', '1', '/', 'e', 'v', 'e', 'n', 't', 's']
      (some [['v', '1']]) = .ok () := by
  refine (C1_validate_url_amended _ _).1.mpr ⟨by decide, ?_⟩
  intro ps hps
  injection hps with hps
  subst hps
  exact ⟨by decide, by decide⟩

/-! ### Token extraction (`extract_tunnel_info`, server.rs lines 224–251) -/

/-- Rust `str::split_once(pat)`: split at the first occurrence of `pat`,
returning the parts before and after it, or `none` when `pat` does not
occur. -/
def splitOnce (pat : List Char) : List Char → Option (List Char × List Char)
  | [] => if pat = [] then some ([], []) else none
  | c :: rest =>
    if pat.isPrefixOf (c :: rest) then some ([], (c :: rest).drop pat.length)
    else
      match splitOnce pat rest with
      | some (a, b) => some (c :: a, b)
      | none => none

/-- The token string the code extracts from the header: the
`.and_then(to_str).and_then(split_once(JWT_HEADER_PREFIX)).map(second)
.unwrap_or_default()` chain.  `none` models both an absent header and one
whose bytes `to_str` rejects. -/
def tokenOf (jwt_header_pat : List Char) (hdr : Option (List Char)) : List Char :=
  ((hdr.bind (fun h => splitOnce jwt_header_pat h)).map Prod.snd).getD []

/-- `extract_tunnel_info(req)`: extract the token after the configured header
token value and hand it to the JWT verifier (`jsonwebtoken::decode` with the
startup `JWT_DECODE` key, modelled as the abstract function `verify`); a
verifier failure yields the uniform 400 response. -/
def extract_tunnel_info (jwt_header_pat : List Char)
    (sec_websocket_proto : Option (List Char))
    (verify : List Char → Option JwtTunnelConfig) :
    Except HttpResponse JwtTunnelConfig :=
  match verify (tokenOf jwt_header_pat sec_websocket_proto) with
  | some token => .ok token
  | none => .error badRequest

lemma tokenOf_none (pat : List Char) : tokenOf pat none = [] := rfl

lemma tokenOf_noSplit (pat h : List Char) (hs : splitOnce pat h = none) :
    tokenOf pat (some h) = [] := by
  simp [tokenOf, hs]

lemma tokenOf_split (pat h a b : List Char) (hs : splitOnce pat h = some (a, b)) :
    tokenOf pat (some h) = b := by
  simp [tokenOf, hs]

lemma splitOnce_eq_some (pat : List Char) :
    ∀ (s a b : List Char), splitOnce pat s = some (a, b) → s = a ++ pat ++ b := by
  intro s
  induction s with
  | nil =>
    intro a b h
    simp only [splitOnce] at h
    split at h
    · rename_i hpat
      rw [Option.some.injEq, Prod.mk.injEq] at h
      obtain ⟨ha, hb⟩ := h
      subst ha; subst hb; subst hpat
      rfl
    · exact Option.noConfusion h
  | cons c rest ih =>
    intro a b h
    simp only [splitOnce] at h
    split at h
    · rename_i hpre
      rw [Option.some.injEq, Prod.mk.injEq] at h
      obtain ⟨ha, hb⟩ := h
      subst ha; subst hb
      obtain ⟨t, ht⟩ := List.isPrefixOf_iff_prefix.mp hpre
      rw [← ht, List.drop_left]
      simp
    · rcases hs : splitOnce pat rest with _ | ⟨a1, b1⟩
      · rw [hs] at h; exact Option.noConfusion h
      · rw [hs] at h
        dsimp only at h
        rw [Option.some.injEq, Prod.mk.injEq] at h
        obtain ⟨ha, hb⟩ := h
        subst ha; subst hb
        rw [ih a1 b1 hs]
        simp

lemma splitOnce_eq_none (pat : List Char) :
    ∀ s, splitOnce pat s = none → ∀ a b, s ≠ a ++ pat ++ b := by
  intro s
  induction s with
  | nil =>
    intro h a b hab
    simp only [splitOnce] at h
    split at h
    · exact Option.noConfusion h
    · rename_i hpat
      have h0 : (a ++ pat) ++ b = [] := hab.symm
      obtain ⟨h01, -⟩ := List.append_eq_nil.mp h0
      obtain ⟨-, h02⟩ := List.append_eq_nil.mp h01
      exact hpat h02
  | cons c rest ih =>
    intro h a b hab
    simp only [splitOnce] at h
    split at h
    · exact Option.noConfusion h
    · rename_i hpre
      have hsrest : splitOnce pat rest = none := by
        rcases hs : splitOnce pat rest with _ | ⟨a1, b1⟩
        · rfl
        · rw [hs] at h; exact Option.noConfusion h
      rcases a with _ | ⟨a0, a1⟩
      · rw [List.nil_append] at hab
        exact hpre (List.isPrefixOf_iff_prefix.mpr ⟨b, hab.symm⟩)
      · rw [List.cons_append, List.cons_append] at hab
        injection hab with h1 h2
        exact ih hsrest a1 b h2

lemma splitOnce_minimal (pat : List Char) :
    ∀ s a b, splitOnce pat s = some (a, b) →
      ∀ a2 b2, s = a2 ++ pat ++ b2 → a.length ≤ a2.length := by
  intro s
  induction s with
  | nil =>
    intro a b h a2 b2 hab
    simp only [splitOnce] at h
    split at h
    · rw [Option.some.injEq, Prod.mk.injEq] at h
      obtain ⟨ha, -⟩ := h
      subst ha
      simp
    · exact Option.noConfusion h
  | cons c rest ih =>
    intro a b h a2 b2 hab
    simp only [splitOnce] at h
    split at h
    · rw [Option.some.injEq, Prod.mk.injEq] at h
      obtain ⟨ha, -⟩ := h
      subst ha
      simp
    · rename_i hpre
      rcases hs : splitOnce pat rest with _ | ⟨a1, b1⟩
      · rw [hs] at h; exact Option.noConfusion h
      · rw [hs] at h
        dsimp only at h
        rw [Option.some.injEq, Prod.mk.injEq] at h
        obtain ⟨ha, hb⟩ := h
        subst ha; subst hb
        rcases a2 with _ | ⟨a0, a3⟩
        · rw [List.nil_append] at hab
          exact absurd (List.isPrefixOf_iff_prefix.mpr ⟨b2, hab.symm⟩) hpre
        · rw [List.cons_append, List.cons_append] at hab
          injection hab with h1 h2
          have := ih a1 b1 hs a3 b2 h2
          simp only [List.length_cons]
          omega

/-- Claim C2 (amended): token extraction reads the `Sec-WebSocket-Protocol`
header, splits it at the first occurrence of the configured token value
anywhere in the header — not necessarily at the start of a comma-separated
sub-value — and hands the entire remainder after that occurrence to the
verifier; it yields the uniform 400 response whenever the header is absent or
unreadable, the token value does not occur in it, or the verifier rejects the
extracted remainder; extraction succeeds exactly when the verifier accepts
that remainder.  (The hypothesis records that the external JWT verifier
rejects the empty string — `jsonwebtoken::decode` does, for any key — which
is the string the code passes when the header or the token value is missing;
the last conjunct states that the split is at the earliest occurrence.) -/
theorem C2_extract_tunnel_info (jwt_header_pat : List Char)
    (hdr : Option (List Char)) (verify : List Char → Option JwtTunnelConfig)
    (hempty : verify [] = none) :
    (hdr = none → extract_tunnel_info jwt_header_pat hdr verify = .error badRequest) ∧
    (∀ h, hdr = some h → (¬ ∃ a b, h = a ++ jwt_header_pat ++ b) →
      extract_tunnel_info jwt_header_pat hdr verify = .error badRequest) ∧
    (∀ h a b, hdr = some h → splitOnce jwt_header_pat h = some (a, b) →
      h = a ++ jwt_header_pat ++ b ∧
      extract_tunnel_info jwt_header_pat hdr verify =
        (match verify b with
         | some token => Except.ok token
         | none => Except.error badRequest)) ∧
    (∀ token, extract_tunnel_info jwt_header_pat hdr verify = .ok token →
      ∃ h a b, hdr = some h ∧ h = a ++ jwt_header_pat ++ b ∧ verify b = some token) ∧
    (∀ h a b, hdr = some h → splitOnce jwt_header_pat h = some (a, b) →
      ∀ a2 b2, h = a2 ++ jwt_header_pat ++ b2 → a.length ≤ a2.length) := by
  refine ⟨?_, ?_, ?_, ?_, ?_⟩
  · intro h0; subst h0
    unfold extract_tunnel_info
    rw [tokenOf_none, hempty]
  · intro h hh hno
    subst hh
    have hsn : splitOnce jwt_header_pat h = none := by
      rcases hs : splitOnce jwt_header_pat h with _ | ⟨a, b⟩
      · rfl
      · exact absurd ⟨a, b, splitOnce_eq_some _ h a b hs⟩ hno
    unfold extract_tunnel_info
    rw [tokenOf_noSplit _ _ hsn, hempty]
  · intro h a b hh hs
    subst hh
    refine ⟨splitOnce_eq_some _ h a b hs, ?_⟩
    unfold extract_tunnel_info
    rw [tokenOf_split _ _ _ _ hs]
  · intro token htok
    rcases hdr with _ | h
    · unfold extract_tunnel_info at htok
      rw [tokenOf_none, hempty] at htok
      exact Except.noConfusion htok
    · rcases hs : splitOnce jwt_header_pat h with _ | ⟨a, b⟩
      · unfold extract_tunnel_info at htok
        rw [tokenOf_noSplit _ _ hs, hempty] at htok
        exact Except.noConfusion htok
      · refine ⟨h, a, b, rfl, splitOnce_eq_some _ h a b hs, ?_⟩
        unfold extract_tunnel_info at htok
        rw [tokenOf_split _ _ _ _ hs] at htok
        rcases hv : verify b with _ | t
        · rw [hv] at htok; exact Except.noConfusion htok
        · rw [hv] at htok
          injection htok with ht
          rw [ht]
  · intro h a b hh hs a2 b2 hab
    exact splitOnce_minimal jwt_header_pat h a b hs a2 b2 hab

/-- Concrete claims used by the claim C2 witness and counterexample. -/
def jwtC2 : JwtTunnelConfig := ⟨"w", LocalProtocol.Tcp, "localhost", 8080⟩

/-- Concrete verifier used by the claim C2 witness and counterexample:
accepts exactly the token `"t"`. -/
def verifyC2 : List Char → Option JwtTunnelConfig :=
  fun s => if s = ['t'] then some jwtC2 else none

/-- Claim C2 (counterexample): with token value `"b."`, the header `"Xb.t"`
contains no comma, so its only comma-separated sub-value is the whole header,
and that sub-value does not begin with the token value — the claim as stated
therefore requires the uniform 400 response.  Yet extraction succeeds: the
code splits at the first occurrence of `"b."` anywhere inside the header
(here, mid-value) and verifies the remainder `"t"`. -/
theorem C2_counterexample :
    extract_tunnel_info ['b', '.'] (some ['X', 'b', '.', 't']) verifyC2 = .ok jwtC2 ∧
    (['b', '.'].isPrefixOf ['X', 'b', '.', 't']) = false ∧
    ¬ ',' ∈ ['X', 'b', '.', 't'] := by
  refine ⟨rfl, by decide, by decide⟩

/-- Claim C2 witness: a header carrying the configured token value `"b."`
followed by the token `"t"` extracts and verifies. -/
theorem C2_witness :
    extract_tunnel_info ['b', '.'] (some ['b', '.', 't']) verifyC2 = .ok jwtC2 := by
  have h := C2_extract_tunnel_info ['b', '.'] (some ['b', '.', 't']) verifyC2 rfl
  have h3 := (h.2.2.1 ['b', '.', 't'] [] ['t'] rfl rfl).2
  rw [h3]
  rfl

/-! ### Destination allow-list (`validate_destination`, server.rs lines 253–273) -/

/-- `validate_destination(req, jwt, destination_restriction)`: when the
destination allow-list is configured, the string `"{host}:{port}"` built from
the claims must be exactly equal to one of the listed entries; any mismatch
yields the uniform 400 response.  No list configured means every destination
passes. -/
def validate_destination (jwt : JwtTunnelConfig)
    (destination_restriction : Option (List String)) : Except HttpResponse Unit :=
  match destination_restriction with
  | none => .ok ()
  | some allowed_dests =>
    let requested_dest := jwt.r ++ ":" ++ natToDecStr jwt.rp
    if allowed_dests.any (fun dest => decide (dest = requested_dest)) then .ok ()
    else .error badRequest

/-- Claim C4: destination validation succeeds iff no allow-list is configured
or the exact string `"{host}:{port}"` from the verified claims is an element
of the configured list, and every failure is the uniform 400 response. -/
theorem C4_validate_destination (jwt : JwtTunnelConfig)
    (restriction : Option (List String)) :
    (validate_destination jwt restriction = .ok () ↔
      (restriction = none ∨
        ∃ l, restriction = some l ∧ (jwt.r ++ ":" ++ natToDecStr jwt.rp) ∈ l)) ∧
    (validate_destination jwt restriction = .ok () ∨
      validate_destination jwt restriction = .error badRequest) := by
  rcases restriction with _ | l
  · exact ⟨⟨fun _ => Or.inl rfl, fun _ => rfl⟩, Or.inl rfl⟩
  · have hmem : (l.any (fun dest => decide (dest = jwt.r ++ ":" ++ natToDecStr jwt.rp)) = true) ↔
        (jwt.r ++ ":" ++ natToDecStr jwt.rp) ∈ l := by
      rw [List.any_eq_true]
      constructor
      · rintro ⟨x, hx, hd⟩
        rw [decide_eq_true_iff] at hd
        exact hd ▸ hx
      · intro hm
        exact ⟨_, hm, by rw [decide_eq_true_iff]⟩
    rcases hb : l.any (fun dest => decide (dest = jwt.r ++ ":" ++ natToDecStr jwt.rp)) with _ | _
    · have hval : validate_destination jwt (some l) = .error badRequest := by
        unfold validate_destination
        dsimp only
        rw [hb, if_neg Bool.false_ne_true]
      rw [hval]
      refine ⟨⟨fun h => absurd h (fun h => Except.noConfusion h), ?_⟩, Or.inr rfl⟩
      rintro (h | ⟨l1, hl1, hm⟩)
      · exact Option.noConfusion h
      · injection hl1 with hl1
        subst hl1
        have hx := hmem.mpr hm
        rw [hb] at hx
        exact Bool.noConfusion hx
    · have hval : validate_destination jwt (some l) = .ok () := by
        unfold validate_destination
        dsimp only
        rw [hb, if_pos rfl]
      rw [hval]
      exact ⟨⟨fun _ => Or.inr ⟨l, rfl, hmem.mp hb⟩, fun _ => rfl⟩, Or.inl rfl⟩

/-! ### Reverse-listener registry (`run_listening_server`, server.rs lines 122–178) -/

/-- A per-protocol registry map `(Host, u16) → mpsc::Receiver<T>` (one of the
three `SERVERS` statics), modelled extensionally over an abstract key type.
The receiver handed out by a spawned pump task is modelled by the list of
sub-connections it will still deliver. -/
def RegMap (K T : Type) : Type := K → Option (List T)

/-- `servers.lock().remove(local_srv)` — the map afterwards. -/
def regRemove {K T : Type} [DecidableEq K] (m : RegMap K T) (k : K) : RegMap K T :=
  fun q => if q = k then none else m q

/-- `servers.lock().insert(local_srv.clone(), listening_server)`. -/
def regInsert {K T : Type} [DecidableEq K] (m : RegMap K T) (k : K) (v : List T) :
    RegMap K T :=
  fun q => if q = k then some v else m q

/-- The sub-connections the spawned pump task delivers to a serial consumer:
the leading `Ok` items of the listener stream, in order — the pump `break`s at
the first `Err` item and at end of stream. -/
def pumpItems {T E : Type} : List (Except E T) → List T
  | [] => []
  | .error _ :: _ => []
  | .ok x :: rest => x :: pumpItems rest

/-- Outcome of one `run_listening_server` call: the delivered sub-connection
(or error), the registry map afterwards, and how many times the listener
factory (`gen_listening_server`) was awaited during the call (0 or 1). -/
structure AcquireResult (K T : Type) where
  result : Except String T
  map : RegMap K T
  factoryCalls : Nat

/-- `run_listening_server(local_srv, servers, gen_listening_server)`: remove
the receiver under the key; when none is present, await the factory (its
failure propagates, `?`) and spawn the pump for its stream; then receive one
sub-connection — end of stream is `Err("listening server stopped")`, with no
reinsertion — and on success reinsert the receiver before returning the
sub-connection. -/
def run_listening_server {K T E : Type} [DecidableEq K] (servers : RegMap K T)
    (local_srv : K) (gen_listening_server : Except String (List (Except E T))) :
    AcquireResult K T :=
  match servers local_srv with
  | some pending =>
    match pending with
    | [] => ⟨.error "listening server stopped", regRemove servers local_srv, 0⟩
    | x :: rest => ⟨.ok x, regInsert (regRemove servers local_srv) local_srv rest, 0⟩
  | none =>
    match gen_listening_server with
    | .error e => ⟨.error e, regRemove servers local_srv, 1⟩
    | .ok strm =>
      match pumpItems strm with
      | [] => ⟨.error "listening server stopped", regRemove servers local_srv, 1⟩
      | x :: rest => ⟨.ok x, regInsert (regRemove servers local_srv) local_srv rest, 1⟩

/-- `N` serial invocations of `run_listening_server` with the same key and
factory, threading the registry map: the list of results, the final map, and
the total number of factory awaits. -/
def acquireN {K T E : Type} [DecidableEq K] (local_srv : K)
    (gen : Except String (List (Except E T))) :
    Nat → RegMap K T → List (Except String T) × RegMap K T × Nat
  | 0, m => ([], m, 0)
  | n + 1, m =>
    let r := run_listening_server m local_srv gen
    let rest := acquireN local_srv gen n r.map
    (r.result :: rest.1, rest.2.1, r.factoryCalls + rest.2.2)

lemma regInsert_self {K T : Type} [DecidableEq K] (m : RegMap K T) (k : K)
    (v : List T) : regInsert m k v k = some v := by
  simp [regInsert]

lemma regRemove_self {K T : Type} [DecidableEq K] (m : RegMap K T) (k : K) :
    regRemove m k k = none := by
  simp [regRemove]

lemma rls_some_cons {K T E : Type} [DecidableEq K] (m : RegMap K T) (k : K)
    (gen : Except String (List (Except E T))) (x : T) (rest : List T)
    (h : m k = some (x :: rest)) :
    run_listening_server m k gen = ⟨.ok x, regInsert (regRemove m k) k rest, 0⟩ := by
  unfold run_listening_server
  rw [h]

lemma rls_some_nil {K T E : Type} [DecidableEq K] (m : RegMap K T) (k : K)
    (gen : Except String (List (Except E T))) (h : m k = some []) :
    run_listening_server m k gen = ⟨.error "listening server stopped", regRemove m k, 0⟩ := by
  unfold run_listening_server
  rw [h]

lemma rls_none_cons {K T E : Type} [DecidableEq K] (m : RegMap K T) (k : K)
    (strm : List (Except E T)) (x : T) (rest : List T)
    (h : m k = none) (hp : pumpItems strm = x :: rest) :
    run_listening_server m k (.ok strm) = ⟨.ok x, regInsert (regRemove m k) k rest, 1⟩ := by
  unfold run_listening_server
  rw [h]
  dsimp only
  rw [hp]

lemma rls_none_nil {K T E : Type} [DecidableEq K] (m : RegMap K T) (k : K)
    (strm : List (Except E T)) (h : m k = none) (hp : pumpItems strm = []) :
    run_listening_server m k (.ok strm) =
      ⟨.error "listening server stopped", regRemove m k, 1⟩ := by
  unfold run_listening_server
  rw [h]
  dsimp only
  rw [hp]

lemma rls_none_factory_err {K T E : Type} [DecidableEq K] (m : RegMap K T) (k : K)
    (e : String) (h : m k = none) :
    run_listening_server m k (.error e : Except String (List (Except E T))) =
      ⟨.error e, regRemove m k, 1⟩ := by
  unfold run_listening_server
  rw [h]

lemma rls_factoryCalls_of_none {K T E : Type} [DecidableEq K] (m : RegMap K T)
    (k : K) (gen : Except String (List (Except E T))) (h : m k = none) :
    (run_listening_server m k gen).factoryCalls = 1 := by
  rcases gen with e | strm
  · rw [rls_none_factory_err m k e h]
  · rcases hp : pumpItems strm with _ | ⟨x, rest⟩
    · rw [rls_none_nil m k strm h hp]
    · rw [rls_none_cons m k strm x rest h hp]

lemma acquireN_succ {K T E : Type} [DecidableEq K] (k : K)
    (gen : Except String (List (Except E T))) (n : Nat) (m : RegMap K T) :
    acquireN k gen (n + 1) m =
      ((run_listening_server m k gen).result ::
          (acquireN k gen n (run_listening_server m k gen).map).1,
        (acquireN k gen n (run_listening_server m k gen).map).2.1,
        (run_listening_server m k gen).factoryCalls +
          (acquireN k gen n (run_listening_server m k gen).map).2.2) := rfl

lemma acquireN_some {K T E : Type} [DecidableEq K] (k : K)
    (gen : Except String (List (Except E T))) :
    ∀ (n : Nat) (m : RegMap K T) (l : List T), m k = some l → n ≤ l.length →
      (acquireN k gen n m).1 = (l.take n).map Except.ok ∧
      (acquireN k gen n m).2.2 = 0 ∧
      (acquireN k gen n m).2.1 k = some (l.drop n) := by
  intro n
  induction n with
  | zero =>
    intro m l hm _
    exact ⟨rfl, rfl, by simpa using hm⟩
  | succ n ih =>
    intro m l hm hlen
    rcases l with _ | ⟨x, rest⟩
    · simp at hlen
    · have hstep := rls_some_cons m k gen x rest hm
      obtain ⟨ih1, ih2, ih3⟩ := ih (regInsert (regRemove m k) k rest) rest
        (regInsert_self _ _ _) (by simpa using hlen)
      rw [acquireN_succ, hstep]
      dsimp only
      refine ⟨?_, ?_, ?_⟩
      · rw [ih1]
        simp
      · rw [ih2]
      · rw [ih3]
        simp

/-- Claim C3: `N` serial `acquire(key, factory)` invocations starting from a
registry with no entry at the key return the first `N` sub-connections
produced by the underlying listener — in arrival order, each delivered to
exactly one caller — while the factory is awaited exactly once in total,
namely during the first invocation; each later invocation reuses the receiver
its predecessor reinserted, and the final map holds the receiver with exactly
the remaining items. -/
theorem C3_serial_acquire {K T E : Type} [DecidableEq K] (k : K)
    (strm : List (Except E T)) (m : RegMap K T) (N : Nat)
    (hnone : m k = none) (hN : 1 ≤ N) (hlen : N ≤ (pumpItems strm).length) :
    (acquireN k (.ok strm) N m).1 = ((pumpItems strm).take N).map Except.ok ∧
    (acquireN k (.ok strm) N m).2.2 = 1 ∧
    (run_listening_server m k (.ok strm)).factoryCalls = 1 ∧
    (acquireN k (.ok strm) N m).2.1 k = some ((pumpItems strm).drop N) := by
  rcases N with _ | n
  · omega
  · rcases hpump : pumpItems strm with _ | ⟨x, rest⟩
    · rw [hpump] at hlen
      simp at hlen
    · have hstep := rls_none_cons m k strm x rest hnone hpump
      obtain ⟨ih1, ih2, ih3⟩ := acquireN_some k (Except.ok strm) n
        (regInsert (regRemove m k) k rest) rest (regInsert_self _ _ _)
        (by rw [hpump] at hlen; simpa using hlen)
      rw [acquireN_succ, hstep]
      dsimp only
      refine ⟨?_, ?_, rfl, ?_⟩
      · rw [ih1]
        simp
      · rw [ih2]
      · rw [ih3]
        simp

/-- Claim C3 witness: three serial acquisitions against a fresh listener
producing four sub-connections return the first three, in order, with exactly
one factory await. -/
theorem C3_witness :
    (acquireN () (Except.ok [Except.ok 10, Except.ok 20, Except.ok 30,
        (Except.ok 40 : Except Unit Nat)]) 3 (fun _ : Unit => none)).1 =
      [Except.ok 10, Except.ok 20, Except.ok 30] ∧
    (acquireN () (Except.ok [Except.ok 10, Except.ok 20, Except.ok 30,
        (Except.ok 40 : Except Unit Nat)]) 3 (fun _ : Unit => none)).2.2 = 1 := by
  have h := C3_serial_acquire () [Except.ok 10, Except.ok 20, Except.ok 30,
    (Except.ok 40 : Except Unit Nat)] (fun _ : Unit => none) 3 rfl (by omega) (by decide)
  refine ⟨?_, h.2.1⟩
  rw [h.1]
  rfl

/-- Claim C10: when `run_listening_server` fails because the receiver yields
`None` (error `"listening server stopped"`), the receiver is not reinserted:
the registry map afterwards has no entry for the key, so the next call for
that key awaits the factory again (exactly one factory await, whatever the
new factory returns); the receiver is reinserted exactly on the success path,
right before the obtained sub-connection is returned. -/
theorem C10_no_reinsert_on_stop {K T E : Type} [DecidableEq K] (m : RegMap K T)
    (k : K) (gen : Except String (List (Except E T))) :
    ((run_listening_server m k gen).result = .error "listening server stopped" →
      (run_listening_server m k gen).map k = none ∧
      ∀ gen' : Except String (List (Except E T)),
        (run_listening_server (run_listening_server m k gen).map k gen').factoryCalls = 1) ∧
    (∀ x, (run_listening_server m k gen).result = .ok x →
      ∃ rest, (run_listening_server m k gen).map k = some rest) := by
  constructor
  · intro hres
    have hmap : (run_listening_server m k gen).map k = none := by
      rcases hmk : m k with _ | pending
      · rcases gen with e | strm
        · rw [rls_none_factory_err m k e hmk]
          exact regRemove_self m k
        · rcases hp : pumpItems strm with _ | ⟨x, rest⟩
          · rw [rls_none_nil m k strm hmk hp]
            exact regRemove_self m k
          · rw [rls_none_cons m k strm x rest hmk hp] at hres
            exact absurd hres (by simp)
      · rcases pending with _ | ⟨x, rest⟩
        · rw [rls_some_nil m k gen hmk]
          exact regRemove_self m k
        · rw [rls_some_cons m k gen x rest hmk] at hres
          exact absurd hres (by simp)
    exact ⟨hmap, fun gen' => rls_factoryCalls_of_none _ _ _ hmap⟩
  · intro x hres
    rcases hmk : m k with _ | pending
    · rcases gen with e | strm
      · rw [rls_none_factory_err m k e hmk] at hres
        exact absurd hres (by simp)
      · rcases hp : pumpItems strm with _ | ⟨y, rest⟩
        · rw [rls_none_nil m k strm hmk hp] at hres
          exact absurd hres (by simp)
        · rw [rls_none_cons m k strm y rest hmk hp]
          exact ⟨rest, regInsert_self _ _ _⟩
    · rcases pending with _ | ⟨y, rest⟩
      · rw [rls_some_nil m k gen hmk] at hres
        exact absurd hres (by simp)
      · rw [rls_some_cons m k gen y rest hmk]
        exact ⟨rest, regInsert_self _ _ _⟩

/-- Claim C10 witness: with an exhausted receiver in the registry, the call
fails with the stop error and the key is absent from the map afterwards. -/
theorem C10_witness :
    (run_listening_server (fun _ : Unit => some ([] : List Nat)) ()
        (Except.ok ([] : List (Except Unit Nat)))).map () = none := by
  have h := C10_no_reinsert_on_stop (fun _ : Unit => some ([] : List Nat)) ()
    (Except.ok ([] : List (Except Unit Nat)))
  exact (h.1 rfl).1

/-! ### Tunnel dispatch (`run_tunnel`, server.rs lines 35–120) -/

/-- The external collaborators `run_tunnel` invokes, over an abstract type `σ`
of byte-stream values: `Host::parse`, `udp::connect` (host, port, timeout
seconds), `tcp::connect` (host, port, connect-timeout seconds; `SO_MARK` and
the DNS resolver are folded into the function), and the three
`run_listening_server` acquisitions against the per-protocol `SERVERS`
registries (listener factory included).  `intoSplit` models
`TcpStream::into_split` and `ioSplit` models `tokio::io::split`. -/
structure TunnelEnv (σ : Type) where
  hostParse : String → Except String String
  udpConnect : String → Nat → Nat → Except String σ
  tcpConnect : String → Nat → Nat → Except String (σ × σ)
  acquireReverseTcp : String → Nat → Except String σ
  acquireReverseUdp : String → Nat → Option Nat → Except String σ
  acquireReverseSocks5 : String → Nat → Except String (σ × (String × Nat))
  intoSplit : σ → σ × σ
  ioSplit : σ → σ × σ

/-- `run_tunnel(server_config, jwt)`: dispatch on the claims' protocol and
return `(effective protocol, host, port, read half, write half)`.  The
forward-UDP branch connects with `timeout.unwrap_or(10 s)` and returns the
protocol as `Udp { timeout: None }` with both halves referencing the one
duplex stream (`cnx.clone()` / `cnx`); forward TCP connects with a 10 s
timeout and splits the socket; the three reverse branches acquire a
sub-connection from the shared registry, the SOCKS5 one replacing the
claims-derived `(host, port)` with the tuple the listener reported; any other
protocol is rejected. -/
def run_tunnel {σ : Type} (env : TunnelEnv σ) (claims : JwtTunnelConfig) :
    Except String (LocalProtocol × String × Nat × σ × σ) :=
  match claims.p with
  | LocalProtocol.Udp timeout =>
    match env.hostParse claims.r with
    | .error e => .error e
    | .ok host =>
      match env.udpConnect host claims.rp (timeout.getD 10) with
      | .error e => .error e
      | .ok cnx => .ok (LocalProtocol.Udp none, host, claims.rp, cnx, cnx)
  | LocalProtocol.Tcp =>
    match env.hostParse claims.r with
    | .error e => .error e
    | .ok host =>
      match env.tcpConnect host claims.rp 10 with
      | .error e => .error e
      | .ok s => .ok (claims.p, host, claims.rp, s.1, s.2)
  | LocalProtocol.ReverseTcp =>
    match env.hostParse claims.r with
    | .error e => .error e
    | .ok host =>
      match env.acquireReverseTcp host claims.rp with
      | .error e => .error e
      | .ok tcp =>
        .ok (claims.p, host, claims.rp, (env.intoSplit tcp).1, (env.intoSplit tcp).2)
  | LocalProtocol.ReverseUdp timeout =>
    match env.hostParse claims.r with
    | .error e => .error e
    | .ok host =>
      match env.acquireReverseUdp host claims.rp timeout with
      | .error e => .error e
      | .ok udp =>
        .ok (claims.p, host, claims.rp, (env.ioSplit udp).1, (env.ioSplit udp).2)
  | LocalProtocol.ReverseSocks5 =>
    match env.hostParse claims.r with
    | .error e => .error e
    | .ok host =>
      match env.acquireReverseSocks5 host claims.rp with
      | .error e => .error e
      | .ok s =>
        .ok (claims.p, s.2.1, s.2.2, (env.ioSplit s.1).1, (env.ioSplit s.1).2)
  | _ => .error "Invalid upgrade request"

lemma run_tunnel_udp {σ : Type} (env : TunnelEnv σ) (claims : JwtTunnelConfig)
    (t : Option Nat) (hp : claims.p = .Udp t) :
    run_tunnel env claims =
      (env.hostParse claims.r).bind (fun host =>
        (env.udpConnect host claims.rp (t.getD 10)).map (fun cnx =>
          (LocalProtocol.Udp none, host, claims.rp, cnx, cnx))) := by
  unfold run_tunnel
  rw [hp]
  dsimp only
  rcases hh : env.hostParse claims.r with e | host
  · rfl
  · dsimp only [Except.bind]
    rcases hu : env.udpConnect host claims.rp (t.getD 10) with e | cnx
    · rfl
    · rfl

lemma run_tunnel_tcp {σ : Type} (env : TunnelEnv σ) (claims : JwtTunnelConfig)
    (hp : claims.p = .Tcp) :
    run_tunnel env claims =
      (env.hostParse claims.r).bind (fun host =>
        (env.tcpConnect host claims.rp 10).map (fun s =>
          (LocalProtocol.Tcp, host, claims.rp, s.1, s.2))) := by
  unfold run_tunnel
  rw [hp]
  dsimp only
  rcases hh : env.hostParse claims.r with e | host
  · rfl
  · dsimp only [Except.bind]
    rcases ht : env.tcpConnect host claims.rp 10 with e | s
    · rfl
    · rfl

lemma run_tunnel_rtcp {σ : Type} (env : TunnelEnv σ) (claims : JwtTunnelConfig)
    (hp : claims.p = .ReverseTcp) :
    run_tunnel env claims =
      (env.hostParse claims.r).bind (fun host =>
        (env.acquireReverseTcp host claims.rp).map (fun tcp =>
          (LocalProtocol.ReverseTcp, host, claims.rp,
            (env.intoSplit tcp).1, (env.intoSplit tcp).2))) := by
  unfold run_tunnel
  rw [hp]
  dsimp only
  rcases hh : env.hostParse claims.r with e | host
  · rfl
  · dsimp only [Except.bind]
    rcases ht : env.acquireReverseTcp host claims.rp with e | s
    · rfl
    · rfl

lemma run_tunnel_rudp {σ : Type} (env : TunnelEnv σ) (claims : JwtTunnelConfig)
    (t : Option Nat) (hp : claims.p = .ReverseUdp t) :
    run_tunnel env claims =
      (env.hostParse claims.r).bind (fun host =>
        (env.acquireReverseUdp host claims.rp t).map (fun udp =>
          (LocalProtocol.ReverseUdp t, host, claims.rp,
            (env.ioSplit udp).1, (env.ioSplit udp).2))) := by
  unfold run_tunnel
  rw [hp]
  dsimp only
  rcases hh : env.hostParse claims.r with e | host
  · rfl
  · dsimp only [Except.bind]
    rcases ht : env.acquireReverseUdp host claims.rp t with e | s
    · rfl
    · rfl

lemma run_tunnel_rsocks {σ : Type} (env : TunnelEnv σ) (claims : JwtTunnelConfig)
    (hp : claims.p = .ReverseSocks5) :
    run_tunnel env claims =
      (env.hostParse claims.r).bind (fun host =>
        (env.acquireReverseSocks5 host claims.rp).map (fun s =>
          (LocalProtocol.ReverseSocks5, s.2.1, s.2.2,
            (env.ioSplit s.1).1, (env.ioSplit s.1).2))) := by
  unfold run_tunnel
  rw [hp]
  dsimp only
  rcases hh : env.hostParse claims.r with e | host
  · rfl
  · dsimp only [Except.bind]
    rcases ht : env.acquireReverseSocks5 host claims.rp with e | s
    · rfl
    · rfl

lemma run_tunnel_stdio {σ : Type} (env : TunnelEnv σ) (claims : JwtTunnelConfig)
    (hp : claims.p = .Stdio) :
    run_tunnel env claims = .error "Invalid upgrade request" := by
  unfold run_tunnel
  rw [hp]

lemma run_tunnel_socks5fwd {σ : Type} (env : TunnelEnv σ) (claims : JwtTunnelConfig)
    (hp : claims.p = .Socks5) :
    run_tunnel env claims = .error "Invalid upgrade request" := by
  unfold run_tunnel
  rw [hp]

/-- Claim C7: for a verified forward-UDP claim, dispatch opens the UDP
connected stream towards the claims' host and port with session timeout equal
to the claims' timeout when present and 10 seconds otherwise, and the
returned read and write halves are two references to the same duplex
object. -/
theorem C7_forward_udp {σ : Type} (env : TunnelEnv σ) (claims : JwtTunnelConfig)
    (t : Option Nat) (hp : claims.p = .Udp t) :
    run_tunnel env claims =
      (env.hostParse claims.r).bind (fun host =>
        (env.udpConnect host claims.rp (t.getD 10)).map (fun cnx =>
          (LocalProtocol.Udp none, host, claims.rp, cnx, cnx))) :=
  run_tunnel_udp env claims t hp

/-- Concrete dispatch environment for the claim C7 witness: stream values are
`Nat`, and the UDP connector returns `100 + timeout` so the witness records
the timeout it was called with. -/
def envC7 : TunnelEnv Nat :=
  { hostParse := fun s => .ok s
    udpConnect := fun _ _ t => .ok (100 + t)
    tcpConnect := fun _ _ _ => .error "unused"
    acquireReverseTcp := fun _ _ => .error "unused"
    acquireReverseUdp := fun _ _ _ => .error "unused"
    acquireReverseSocks5 := fun _ _ => .error "unused"
    intoSplit := fun s => (s, s)
    ioSplit := fun s => (s, s) }

/-- Claim C7 witness: a forward-UDP claim with a 5-second timeout connects
with timeout 5 and yields the same stream value as both halves. -/
theorem C7_witness :
    run_tunnel envC7 ⟨"i", LocalProtocol.Udp (some 5), "h", 9⟩ =
      .ok (LocalProtocol.Udp none, "h", 9, 105, 105) := by
  rw [C7_forward_udp envC7 ⟨"i", LocalProtocol.Udp (some 5), "h", 9⟩ (some 5) rfl]
  rfl

/-- Claim C9: every successful dispatch of a forward-UDP claim reports the
effective protocol `Udp { timeout: None }`, whatever timeout the claims
carried, while every other successful dispatch branch returns the claims'
protocol value unchanged. -/
theorem C9_effective_protocol {σ : Type} (env : TunnelEnv σ) (claims : JwtTunnelConfig)
    (p : LocalProtocol) (h : String) (port : Nat) (rx tx : σ)
    (hok : run_tunnel env claims = .ok (p, h, port, rx, tx)) :
    p = (match claims.p with
         | LocalProtocol.Udp _ => LocalProtocol.Udp none
         | q => q) := by
  cases hcp : claims.p with
  | Udp t =>
    rw [run_tunnel_udp env claims t hcp] at hok
    rcases hh : env.hostParse claims.r with e | host
    · rw [hh] at hok; exact Except.noConfusion hok
    · rw [hh] at hok
      dsimp only [Except.bind] at hok
      rcases hu : env.udpConnect host claims.rp (t.getD 10) with e | cnx
      · rw [hu] at hok; exact Except.noConfusion hok
      · rw [hu] at hok
        dsimp only [Except.map] at hok
        injection hok with h5
        have h1 := congrArg Prod.fst h5
        exact h1.symm
  | Tcp =>
    rw [run_tunnel_tcp env claims hcp] at hok
    rcases hh : env.hostParse claims.r with e | host
    · rw [hh] at hok; exact Except.noConfusion hok
    · rw [hh] at hok
      dsimp only [Except.bind] at hok
      rcases hu : env.tcpConnect host claims.rp 10 with e | s
      · rw [hu] at hok; exact Except.noConfusion hok
      · rw [hu] at hok
        dsimp only [Except.map] at hok
        injection hok with h5
        have h1 := congrArg Prod.fst h5
        exact h1.symm
  | ReverseTcp =>
    rw [run_tunnel_rtcp env claims hcp] at hok
    rcases hh : env.hostParse claims.r with e | host
    · rw [hh] at hok; exact Except.noConfusion hok
    · rw [hh] at hok
      dsimp only [Except.bind] at hok
      rcases hu : env.acquireReverseTcp host claims.rp with e | s
      · rw [hu] at hok; exact Except.noConfusion hok
      · rw [hu] at hok
        dsimp only [Except.map] at hok
        injection hok with h5
        have h1 := congrArg Prod.fst h5
        exact h1.symm
  | ReverseUdp t =>
    rw [run_tunnel_rudp env claims t hcp] at hok
    rcases hh : env.hostParse claims.r with e | host
    · rw [hh] at hok; exact Except.noConfusion hok
    · rw [hh] at hok
      dsimp only [Except.bind] at hok
      rcases hu : env.acquireReverseUdp host claims.rp t with e | s
      · rw [hu] at hok; exact Except.noConfusion hok
      · rw [hu] at hok
        dsimp only [Except.map] at hok
        injection hok with h5
        have h1 := congrArg Prod.fst h5
        exact h1.symm
  | ReverseSocks5 =>
    rw [run_tunnel_rsocks env claims hcp] at hok
    rcases hh : env.hostParse claims.r with e | host
    · rw [hh] at hok; exact Except.noConfusion hok
    · rw [hh] at hok
      dsimp only [Except.bind] at hok
      rcases hu : env.acquireReverseSocks5 host claims.rp with e | s
      · rw [hu] at hok; exact Except.noConfusion hok
      · rw [hu] at hok
        dsimp only [Except.map] at hok
        injection hok with h5
        have h1 := congrArg Prod.fst h5
        exact h1.symm
  | Stdio =>
    rw [run_tunnel_stdio env claims hcp] at hok
    exact Except.noConfusion hok
  | Socks5 =>
    rw [run_tunnel_socks5fwd env claims hcp] at hok
    exact Except.noConfusion hok

/-- Claim C9 witness: the concrete forward-UDP dispatch of the C7 environment
reports `Udp { timeout: None }` even though the claims carried a timeout. -/
theorem C9_witness :
    LocalProtocol.Udp none =
      (match (⟨"i", LocalProtocol.Udp (some 5), "h", 9⟩ : JwtTunnelConfig).p with
       | LocalProtocol.Udp _ => LocalProtocol.Udp none
       | q => q) := by
  exact C9_effective_protocol envC7 ⟨"i", LocalProtocol.Udp (some 5), "h", 9⟩
    (LocalProtocol.Udp none) "h" 9 105 105 (by rw [C7_witness])

/-! ### TLS acceptor with hot reload (`TlsContext::tls_acceptor`, server.rs lines 371–388) -/

/-- The mutable TLS state of the accept loop, over an abstract acceptor type:
the currently held acceptor.  (The reloader and the config reference are
external state; their effect enters through the arguments of
`tls_acceptor`.) -/
structure TlsContext (α : Type) where
  tls_acceptor : α

/-- `TlsContext::tls_acceptor(&mut self)`: if the reloader says the
certificate should be reloaded, rebuild the acceptor
(`tls::tls_acceptor(config, ALPN http/1.1)`, modelled by the
`rebuilt_acceptor` argument); a successful rebuild replaces the held
acceptor, a failed one is logged and the prior acceptor retained.  Returns
the new state and the acceptor handed to the caller. -/
def tls_acceptor {α : Type} (ctx : TlsContext α) (should_reload_certificate : Bool)
    (rebuilt_acceptor : Except String α) : TlsContext α × α :=
  if should_reload_certificate then
    match rebuilt_acceptor with
    | .ok acceptor => (⟨acceptor⟩, acceptor)
    | .error _ => (ctx, ctx.tls_acceptor)
  else (ctx, ctx.tls_acceptor)

/-- Claim C8: each `tls_acceptor` call first consults `should_reload()`:
when it answers false the current acceptor is returned unchanged; when it
answers true and the rebuild succeeds, the freshly built acceptor replaces
the held one and is returned; when the rebuild fails, the previously held
acceptor is retained and returned unchanged. -/
theorem C8_tls_acceptor (α : Type) (ctx : TlsContext α) (rb : Except String α) :
    (tls_acceptor ctx false rb = (ctx, ctx.tls_acceptor)) ∧
    (∀ a : α, tls_acceptor ctx true (.ok a) = (⟨a⟩, a)) ∧
    (∀ e : String, tls_acceptor ctx true (.error e) = (ctx, ctx.tls_acceptor)) :=
  ⟨rfl, fun _ => rfl, fun _ => rfl⟩

/-! ### Base64 (`base64::engine::general_purpose::STANDARD`, used for the
ReverseSOCKS5 `Cookie` response header) -/

/-- Standard-alphabet character of one 6-bit value. -/
def b64EncChar (n : Nat) : Char :=
  if n < 26 then Char.ofNat (65 + n)
  else if n < 52 then Char.ofNat (97 + (n - 26))
  else if n < 62 then Char.ofNat (48 + (n - 52))
  else if n = 62 then '+'
  else '/'

/-- 6-bit value of a standard-alphabet character (inverse of `b64EncChar`). -/
def b64DecChar (c : Char) : Nat :=
  if 'A' ≤ c ∧ c ≤ 'Z' then c.toNat - 65
  else if 'a' ≤ c ∧ c ≤ 'z' then c.toNat - 97 + 26
  else if '0' ≤ c ∧ c ≤ '9' then c.toNat - 48 + 52
  else if c = '+' then 62
  else if c = '/' then 63
  else 0

/-- `STANDARD.encode`: three bytes become four alphabet characters; a final
group of one or two bytes is padded with `=`. -/
def b64Encode : List Nat → List Char
  | [] => []
  | [a] => [b64EncChar (a / 4), b64EncChar (a % 4 * 16), '=', '=']
  | [a, b] => [b64EncChar (a / 4), b64EncChar (a % 4 * 16 + b / 16),
      b64EncChar (b % 16 * 4), '=']
  | a :: b :: c :: rest =>
    b64EncChar (a / 4) :: b64EncChar (a % 4 * 16 + b / 16) ::
      b64EncChar (b % 16 * 4 + c / 64) :: b64EncChar (c % 64) :: b64Encode rest

/-- Regrouping of 6-bit values into bytes, after padding has been stripped. -/
def b64DecodeCore : List Nat → List Nat
  | a :: b :: c :: d :: rest =>
    (a * 4 + b / 16) :: (b % 16 * 16 + c / 4) :: (c % 4 * 64 + d) :: b64DecodeCore rest
  | [a, b, c] => [a * 4 + b / 16, b % 16 * 16 + c / 4]
  | [a, b] => [a * 4 + b / 16]
  | _ => []

/-- Mathematical base64 decoding: strip the `=` padding, map the characters
to their 6-bit values, regroup into bytes. -/
def b64Decode (s : List Char) : List Nat :=
  b64DecodeCore ((s.filter (fun c => c != '=')).map b64DecChar)

/-- The byte string of an ASCII `String` (Rust `format!` output followed by
`.as_bytes()`; all strings involved here are ASCII). -/
def asciiBytes (s : String) : List Nat := s.data.map Char.toNat

lemma b64_dec_enc : ∀ n, n < 64 → b64DecChar (b64EncChar n) = n := by decide

lemma b64EncChar_ne_pad : ∀ n, n < 64 → (b64EncChar n != '=') = true := by decide

lemma filter_pad_cons (c0 : Char) (l : List Char) (h : (c0 != '=') = true) :
    (c0 :: l).filter (fun c => c != '=') = c0 :: l.filter (fun c => c != '=') := by
  simp [List.filter_cons, h]

lemma filter_pad_drop (l : List Char) :
    ('=' :: l).filter (fun c => c != '=') = l.filter (fun c => c != '=') := by
  simp [List.filter_cons]

lemma b64DecodeCore_four (v1 v2 v3 v4 : Nat) (l : List Nat) :
    b64DecodeCore (v1 :: v2 :: v3 :: v4 :: l) =
      (v1 * 4 + v2 / 16) :: (v2 % 16 * 16 + v3 / 4) :: (v3 % 4 * 64 + v4) ::
        b64DecodeCore l := rfl

/-- Round trip of the base64 engine on byte strings. -/
theorem b64_roundtrip (bs : List Nat) (hb : ∀ x ∈ bs, x < 256) :
    b64Decode (b64Encode bs) = bs := by
  have main : ∀ (k : Nat) (bs : List Nat), bs.length ≤ k → (∀ x ∈ bs, x < 256) →
      b64Decode (b64Encode bs) = bs := by
    intro k
    induction k with
    | zero =>
      intro bs hl _
      have hnil : bs = [] := List.eq_nil_of_length_eq_zero (by omega)
      subst hnil
      rfl
    | succ k ih =>
      intro bs hl hb
      rcases bs with _ | ⟨a, _ | ⟨b, _ | ⟨c, rest⟩⟩⟩
      · rfl
      · have ha : a < 256 := hb a (by simp)
        have h1 : a / 4 < 64 := by omega
        have h2 : a % 4 * 16 < 64 := by omega
        rw [show b64Encode [a] =
            [b64EncChar (a / 4), b64EncChar (a % 4 * 16), '=', '='] from rfl]
        unfold b64Decode
        rw [filter_pad_cons _ _ (b64EncChar_ne_pad _ h1),
            filter_pad_cons _ _ (b64EncChar_ne_pad _ h2),
            filter_pad_drop, filter_pad_drop,
            List.filter_nil, List.map_cons, List.map_cons, List.map_nil,
            b64_dec_enc _ h1, b64_dec_enc _ h2]
        rw [show b64DecodeCore [a / 4, a % 4 * 16] = [a / 4 * 4 + a % 4 * 16 / 16] from rfl]
        rw [List.cons.injEq]
        exact ⟨by omega, rfl⟩
      · have ha : a < 256 := hb a (by simp)
        have hb2 : b < 256 := hb b (by simp)
        have h1 : a / 4 < 64 := by omega
        have h2 : a % 4 * 16 + b / 16 < 64 := by omega
        have h3 : b % 16 * 4 < 64 := by omega
        rw [show b64Encode [a, b] = [b64EncChar (a / 4),
            b64EncChar (a % 4 * 16 + b / 16), b64EncChar (b % 16 * 4), '='] from rfl]
        unfold b64Decode
        rw [filter_pad_cons _ _ (b64EncChar_ne_pad _ h1),
            filter_pad_cons _ _ (b64EncChar_ne_pad _ h2),
            filter_pad_cons _ _ (b64EncChar_ne_pad _ h3),
            filter_pad_drop,
            List.filter_nil, List.map_cons, List.map_cons, List.map_cons, List.map_nil,
            b64_dec_enc _ h1, b64_dec_enc _ h2, b64_dec_enc _ h3]
        rw [show b64DecodeCore [a / 4, a % 4 * 16 + b / 16, b % 16 * 4] =
            [a / 4 * 4 + (a % 4 * 16 + b / 16) / 16,
              (a % 4 * 16 + b / 16) % 16 * 16 + b % 16 * 4 / 4] from rfl]
        rw [List.cons.injEq, List.cons.injEq]
        exact ⟨by omega, by omega, rfl⟩
      · have ha : a < 256 := hb a (by simp)
        have hb2 : b < 256 := hb b (by simp)
        have hc : c < 256 := hb c (by simp)
        have h1 : a / 4 < 64 := by omega
        have h2 : a % 4 * 16 + b / 16 < 64 := by omega
        have h3 : b % 16 * 4 + c / 64 < 64 := by omega
        have h4 : c % 64 < 64 := by omega
        have hlrest : rest.length ≤ k := by
          simp only [List.length_cons] at hl
          omega
        have hrest := ih rest hlrest (fun x hx => hb x (by simp [hx]))
        rw [show b64Encode (a :: b :: c :: rest) =
            b64EncChar (a / 4) :: b64EncChar (a % 4 * 16 + b / 16) ::
              b64EncChar (b % 16 * 4 + c / 64) :: b64EncChar (c % 64) ::
              b64Encode rest from rfl]
        unfold b64Decode
        rw [filter_pad_cons _ _ (b64EncChar_ne_pad _ h1),
            filter_pad_cons _ _ (b64EncChar_ne_pad _ h2),
            filter_pad_cons _ _ (b64EncChar_ne_pad _ h3),
            filter_pad_cons _ _ (b64EncChar_ne_pad _ h4),
            List.map_cons, List.map_cons, List.map_cons, List.map_cons,
            b64_dec_enc _ h1, b64_dec_enc _ h2, b64_dec_enc _ h3, b64_dec_enc _ h4,
            b64DecodeCore_four]
        unfold b64Decode at hrest
        rw [hrest]
        rw [List.cons.injEq, List.cons.injEq, List.cons.injEq]
        exact ⟨by omega, by omega, by omega, rfl⟩
  exact main bs.length bs (Nat.le_refl _) hb

/-! ### Upgrade handler (`server_upgrade`, server.rs lines 275–369) -/

/-- `extract_x_forwarded_for(req)`: returns the header value; absent headers
yield `None` and unreadable bytes fall back to the empty string — the
function never fails the request, so the `Err` arm in the caller is dead
code. -/
def extract_x_forwarded_for (xff : Option String) : Except HttpResponse (Option String) :=
  .ok xff

/-- The `Cookie` response header `server_upgrade` inserts for a ReverseSOCKS5
tunnel: base64 of `"https://{dest}:{port}"` where `(dest, port)` is the tuple
the dispatch returned; no other protocol adds the header.
(`HeaderValue::from_str` cannot fail on base64 output, so that error arm is
dead.) -/
def responseCookie (protocol : LocalProtocol) (dest : String) (port : Nat) :
    Option (List Char) :=
  if protocol = LocalProtocol.ReverseSocks5 then
    some (b64Encode (asciiBytes ("https://" ++ dest ++ ":" ++ natToDecStr port)))
  else none

/-- `server_upgrade(server_config, req)`: the admission pipeline.  Reject
non-upgrade requests; record `X-Forwarded-For`; validate the path against the
configured path allow-list; extract and verify the token; validate the
destination; dispatch the tunnel; perform the WebSocket upgrade
(`fastwebsockets::upgrade::upgrade`, modelled by `ws_upgrade`); then add the
ReverseSOCKS5 `Cookie` header when applicable and the
`Sec-WebSocket-Protocol: v1` header on the 101 response.  Every admission
failure produces the uniform 400 response; only a failing upgrade call
produces a 400 with the error appended to the body. -/
def server_upgrade {σ : Type} (is_upgrade_request : Bool) (xff : Option String)
    (path : List Char) (restriction : Option (List (List Char)))
    (jwt_header_pat : List Char) (sec_websocket_proto : Option (List Char))
    (verify : List Char → Option JwtTunnelConfig)
    (restrict_to : Option (List String)) (env : TunnelEnv σ)
    (ws_upgrade : Except String Unit) : HttpResponse :=
  if is_upgrade_request then
    match extract_x_forwarded_for xff with
    | .error e => e
    | .ok _ =>
      match validate_url path restriction with
      | .error e => e
      | .ok () =>
        match extract_tunnel_info jwt_header_pat sec_websocket_proto verify with
        | .error e => e
        | .ok jwt =>
          match validate_destination jwt restrict_to with
          | .error e => e
          | .ok () =>
            match run_tunnel env jwt with
            | .error _ => badRequest
            | .ok (protocol, dest, port, _, _) =>
              match ws_upgrade with
              | .error err =>
                { status := 400, body := "Invalid upgrade request: " ++ err,
                  cookie := none, swsProto := none }
              | .ok () =>
                { status := 101, body := "",
                  cookie := responseCookie protocol dest port,
                  swsProto := some "v1" }
  else badRequest

lemma validate_url_err {path : List Char} {restriction : Option (List (List Char))}
    {e : HttpResponse} (h : validate_url path restriction = .error e) : e = badRequest := by
  rcases validate_url_cases path restriction with h2 | h2
  · rw [h] at h2; exact Except.noConfusion h2
  · rw [h] at h2
    exact Except.error.inj h2

lemma extract_tunnel_info_err {pat : List Char} {hdr : Option (List Char)}
    {verify : List Char → Option JwtTunnelConfig} {e : HttpResponse}
    (h : extract_tunnel_info pat hdr verify = .error e) : e = badRequest := by
  unfold extract_tunnel_info at h
  rcases hv : verify (tokenOf pat hdr) with _ | t
  · rw [hv] at h
    injection h with h
    exact h.symm
  · rw [hv] at h
    exact Except.noConfusion h

lemma validate_destination_err {jwt : JwtTunnelConfig}
    {restriction : Option (List String)} {e : HttpResponse}
    (h : validate_destination jwt restriction = .error e) : e = badRequest := by
  unfold validate_destination at h
  rcases restriction with _ | l
  · exact Except.noConfusion h
  · dsimp only at h
    split at h
    · exact Except.noConfusion h
    · injection h with h
      exact h.symm

/-- Claim C5: every admission failure of the upgrade handler — non-upgrade
request, bad path or failed path allow-list check, absent/malformed/rejected
token, disallowed destination, or dispatch failure — produces exactly the
response `400 "Invalid upgrade request"` with no extra headers, identical
across all of these causes, so the response does not reveal which predicate
failed. -/
theorem C5_uniform_admission_error {σ : Type} (env : TunnelEnv σ)
    (is_upgrade_request : Bool) (xff : Option String) (path : List Char)
    (restriction : Option (List (List Char))) (jwt_header_pat : List Char)
    (sec_websocket_proto : Option (List Char))
    (verify : List Char → Option JwtTunnelConfig)
    (restrict_to : Option (List String)) (ws_upgrade : Except String Unit)
    (hfail : is_upgrade_request = false ∨
      (∃ e, validate_url path restriction = .error e) ∨
      (∃ e, extract_tunnel_info jwt_header_pat sec_websocket_proto verify = .error e) ∨
      (∃ jwt, extract_tunnel_info jwt_header_pat sec_websocket_proto verify = .ok jwt ∧
        ((∃ e, validate_destination jwt restrict_to = .error e) ∨
          (∃ e, run_tunnel env jwt = .error e)))) :
    server_upgrade is_upgrade_request xff path restriction jwt_header_pat
      sec_websocket_proto verify restrict_to env ws_upgrade = badRequest := by
  unfold server_upgrade
  rcases is_upgrade_request with _ | _
  · rfl
  · rw [if_pos rfl]
    dsimp only [extract_x_forwarded_for]
    rcases hvu : validate_url path restriction with e | ⟨⟩
    · dsimp only
      exact validate_url_err hvu
    · dsimp only
      rcases hex : extract_tunnel_info jwt_header_pat sec_websocket_proto verify with e | jwt
      · dsimp only
        exact extract_tunnel_info_err hex
      · dsimp only
        rcases hvd : validate_destination jwt restrict_to with e | ⟨⟩
        · dsimp only
          exact validate_destination_err hvd
        · dsimp only
          rcases hrt : run_tunnel env jwt with e | ⟨protocol, dest, port, rx, tx⟩
          · rfl
          · exfalso
            rcases hfail with h | ⟨e, h⟩ | ⟨e, h⟩ | ⟨jwt2, hj, hrest⟩
            · exact Bool.noConfusion h
            · rw [hvu] at h; exact Except.noConfusion h
            · rw [hex] at h; exact Except.noConfusion h
            · rw [hex] at hj
              injection hj with hj
              subst hj
              rcases hrest with ⟨e, h⟩ | ⟨e, h⟩
              · rw [hvd] at h; exact Except.noConfusion h
              · rw [hrt] at h; exact Except.noConfusion h

/-- Trivial dispatch environment for the claim C5 witness. -/
def envC5 : TunnelEnv Nat :=
  { hostParse := fun s => .ok s
    udpConnect := fun _ _ _ => .error "unused"
    tcpConnect := fun _ _ _ => .error "unused"
    acquireReverseTcp := fun _ _ => .error "unused"
    acquireReverseUdp := fun _ _ _ => .error "unused"
    acquireReverseSocks5 := fun _ _ => .error "unused"
    intoSplit := fun s => (s, s)
    ioSplit := fun s => (s, s) }

/-- Claim C5 witness: a non-upgrade request receives the uniform 400
response. -/
theorem C5_witness :
    server_upgrade false none [] none [] none (fun _ => none) none envC5
      (.ok ()) = badRequest :=
  C5_uniform_admission_error envC5 false none [] none [] none (fun _ => none)
    none (.ok ()) (Or.inl rfl)

lemma asciiBytes_lt (s : String) (h : ∀ c ∈ s.data, c.toNat < 256) :
    ∀ x ∈ asciiBytes s, x < 256 := by
  intro x hx
  unfold asciiBytes at hx
  rw [List.mem_map] at hx
  obtain ⟨c, hc, rfl⟩ := hx
  exact h c hc

lemma cookieMsg_ascii (fh : String) (fp : Nat) (h : ∀ c ∈ fh.data, c.toNat < 256) :
    ∀ c ∈ ("https://" ++ fh ++ ":" ++ natToDecStr fp).data, c.toNat < 256 := by
  intro c hc
  rw [String.data_append, String.data_append, String.data_append,
    List.mem_append, List.mem_append, List.mem_append] at hc
  rcases hc with ((hc | hc) | hc) | hc
  · have hlit : ∀ c ∈ "https://".data, c.toNat < 256 := by decide
    exact hlit c hc
  · exact h c hc
  · have hlit : ∀ c ∈ ":".data, c.toNat < 256 := by decide
    exact hlit c hc
  · exact natToDecimal_ascii fp c hc

/-- Claim C6: a successful ReverseSOCKS5 upgrade responds 101 with a `Cookie`
header whose value decodes (base64) to `"https://" ++ final_host ++ ":" ++
final_port`, where `(final_host, final_port)` is the destination tuple the
SOCKS5 listener reported — replacing the claims-derived tuple — and no other
protocol gets a `Cookie` header. -/
theorem C6_socks5_cookie {σ : Type} (env : TunnelEnv σ) (xff : Option String)
    (path : List Char) (restriction : Option (List (List Char)))
    (jwt_header_pat : List Char) (sec_websocket_proto : Option (List Char))
    (verify : List Char → Option JwtTunnelConfig)
    (restrict_to : Option (List String)) (claims : JwtTunnelConfig)
    (host : String) (strm : σ) (fh : String) (fp : Nat)
    (hvu : validate_url path restriction = .ok ())
    (hex : extract_tunnel_info jwt_header_pat sec_websocket_proto verify = .ok claims)
    (hvd : validate_destination claims restrict_to = .ok ())
    (hcp : claims.p = .ReverseSocks5)
    (hh : env.hostParse claims.r = .ok host)
    (hacq : env.acquireReverseSocks5 host claims.rp = .ok (strm, (fh, fp)))
    (hascii : ∀ c ∈ fh.data, c.toNat < 256) :
    server_upgrade true xff path restriction jwt_header_pat sec_websocket_proto
        verify restrict_to env (.ok ()) =
      { status := 101, body := "",
        cookie := some (b64Encode (asciiBytes ("https://" ++ fh ++ ":" ++ natToDecStr fp))),
        swsProto := some "v1" } ∧
    b64Decode (b64Encode (asciiBytes ("https://" ++ fh ++ ":" ++ natToDecStr fp))) =
      asciiBytes ("https://" ++ fh ++ ":" ++ natToDecStr fp) ∧
    (∀ (q : LocalProtocol) (dest : String) (port : Nat),
      q ≠ LocalProtocol.ReverseSocks5 → responseCookie q dest port = none) := by
  have hrt : run_tunnel env claims =
      .ok (LocalProtocol.ReverseSocks5, fh, fp,
        (env.ioSplit strm).1, (env.ioSplit strm).2) := by
    rw [run_tunnel_rsocks env claims hcp, hh]
    dsimp only [Except.bind]
    rw [hacq]
    rfl
  refine ⟨?_, ?_, ?_⟩
  · unfold server_upgrade
    rw [if_pos rfl]
    dsimp only [extract_x_forwarded_for]
    rw [hvu]
    dsimp only
    rw [hex]
    dsimp only
    rw [hvd]
    dsimp only
    rw [hrt]
    dsimp only
    unfold responseCookie
    rw [if_pos rfl]
  · exact b64_roundtrip _ (asciiBytes_lt _ (cookieMsg_ascii fh fp hascii))
  · intro q dest port hq
    unfold responseCookie
    rw [if_neg hq]

/-- Concrete claims for the claim C6 witness: a ReverseSOCKS5 tunnel towards
`h:9`. -/
def jwtC6 : JwtTunnelConfig := ⟨"w", LocalProtocol.ReverseSocks5, "h", 9⟩

/-- Concrete verifier for the claim C6 witness. -/
def verifyC6 : List Char → Option JwtTunnelConfig :=
  fun s => if s = ['t'] then some jwtC6 else none

/-- Concrete dispatch environment for the claim C6 witness: the SOCKS5
listener reports the final destination `("e", 443)`. -/
def envC6 : TunnelEnv Nat :=
  { hostParse := fun s => .ok s
    udpConnect := fun _ _ _ => .error "unused"
    tcpConnect := fun _ _ _ => .error "unused"
    acquireReverseTcp := fun _ _ => .error "unused"
    acquireReverseUdp := fun _ _ _ => .error "unused"
    acquireReverseSocks5 := fun _ _ => .ok (0, ("e", 443))
    intoSplit := fun s => (s, s)
    ioSplit := fun s => (s, s) }

/-- Claim C6 witness: the concrete ReverseSOCKS5 upgrade responds 101 with
the cookie built from the listener-reported tuple `("e", 443)`, not from the
claims' `("h", 9)`. -/
theorem C6_witness :
    server_upgrade true none ['/', 'e', 'v', 'e', 'n', 't', 's'] none ['b', '.']
        (some ['b', '.', 't']) verifyC6 none envC6 (.ok ()) =
      { status := 101, body := "",
        cookie := some (b64Encode (asciiBytes ("https://" ++ "e" ++ ":" ++ natToDecStr 443))),
        swsProto := some "v1" } :=
  (C6_socks5_cookie envC6 none ['/', 'e', 'v', 'e', 'n', 't', 's'] none
    ['b', '.'] (some ['b', '.', 't']) verifyC6 none jwtC6 "h" 0 "e" 443
    rfl rfl rfl rfl rfl rfl (by decide)).1
